import Mathlib

/-! Verification of the setup repository's install engine (installer.go) and
the legacy orchestrator (main.go). External command execution is modelled by
an environment mapping a tokenized command line to its outcome; the engine
functions are direct translations of the Go source, instrumented with a trace
of the invocations they perform so that claims about which operations run
(and in which order) can be stated. -/

set_option maxRecDepth 8000

namespace SetupRepo

/-- Errors produced by the Go code: the error value of a failed external
command (identified by its tokenized command line), an arbitrary error
returned by a custom install function, or an error wrapped with a message
as fmt.Errorf with the %w verb does. -/
inductive GoError where
  | execFailed (parts : List String) : GoError
  | customMsg (msg : String) : GoError
  | wrapped (msg : String) (e : GoError) : GoError
deriving DecidableEq

/-- Outcome of invoking one external command: captured stdout text and
whether the invocation succeeded (Go: err == nil). -/
structure ExecOutcome where
  output : String
  ok : Bool
deriving DecidableEq

/-- The execution environment: maps a tokenized command line (program name
followed by arguments, as produced by strings.Fields) to the outcome of
running it. One fixed Env models the host system during one run. -/
abbrev Env := List String → ExecOutcome

/-- Record of one observable invocation made by the engine: a detection
probe (cmd.Output in checkInstalled), an install step (cmd.Run in
runInstallCommands), or a call of the custom install function. -/
inductive Invocation where
  | probe (parts : List String) : Invocation
  | run (parts : List String) : Invocation
  | customCall : Invocation
deriving DecidableEq

/-- Helper for fields: scans the character list, accumulating the current
token in reverse; a whitespace character ends the current token. -/
def splitWs : List Char → List Char → List String
  | [], cur => if cur = [] then [] else [⟨cur.reverse⟩]
  | c :: cs, cur =>
    if c.isWhitespace then
      (if cur = [] then [] else [⟨cur.reverse⟩]) ++ splitWs cs []
    else
      splitWs cs (c :: cur)

/-- Model of Go strings.Fields: splits a string around runs of whitespace
into its (possibly empty) list of non-empty tokens. -/
def fields (s : String) : List String :=
  splitWs s.data []

/-- Drops leading whitespace characters from a character list. -/
def dropLeadingWs : List Char → List Char
  | [] => []
  | c :: cs => if c.isWhitespace then dropLeadingWs cs else c :: cs

/-- Model of Go strings.TrimSpace: removes leading and trailing whitespace
from a string. -/
def trimSpace (s : String) : String :=
  ⟨(dropLeadingWs (dropLeadingWs s.data).reverse).reverse⟩

/-- Result of checkInstalled together with the trace of probes it executed. -/
structure CheckResult where
  installed : Bool
  version : String
  err : Option GoError
  trace : List Invocation
deriving DecidableEq

/-- Model of checkInstalled: tries each check command in listed order; a
command string with zero tokens is skipped; the first command whose
execution succeeds yields installed = true with its trimmed output as the
version; when every command fails the result is (false, "", nil). -/
def checkInstalled (env : Env) : List String → CheckResult
  | [] => ⟨false, "", none, []⟩
  | cmdStr :: rest =>
    let parts := fields cmdStr
    if parts = [] then
      checkInstalled env rest
    else
      let r := env parts
      if r.ok then
        ⟨true, trimSpace r.output, none, [Invocation.probe parts]⟩
      else
        let c := checkInstalled env rest
        ⟨c.installed, c.version, c.err, Invocation.probe parts :: c.trace⟩

/-- Result of runInstallCommands together with the trace of steps it ran. -/
structure RunResult where
  err : Option GoError
  trace : List Invocation
deriving DecidableEq

/-- Model of runInstallCommands: executes the install commands sequentially
in listed order; a command string with zero tokens is skipped; the first
failing command aborts the loop and its error is returned. -/
def runInstallCommands (env : Env) : List String → RunResult
  | [] => ⟨none, []⟩
  | cmdStr :: rest =>
    let parts := fields cmdStr
    if parts = [] then
      runInstallCommands env rest
    else
      let r := env parts
      if r.ok then
        let c := runInstallCommands env rest
        ⟨c.err, Invocation.run parts :: c.trace⟩
      else
        ⟨some (GoError.execFailed parts), [Invocation.run parts]⟩

/-- Result of getVersion together with the trace of probes it executed. -/
structure VersionResult where
  version : String
  err : Option GoError
  trace : List Invocation
deriving DecidableEq

/-- Model of getVersion: re-runs checkInstalled on the check commands; when
not installed or on error it returns the empty string with that error,
otherwise the detected version. -/
def getVersion (env : Env) (checkCmds : List String) : VersionResult :=
  let c := checkInstalled env checkCmds
  if !c.installed || c.err.isSome then
    ⟨"", c.err, c.trace⟩
  else
    ⟨c.version, none, c.trace⟩

/-- Model of the InstallCommand struct. The InstallFunc field models the
custom installation function value: none is a nil function pointer (the
call is skipped), and some r is a function returning r when called, with
r = none meaning the function returns a nil error. -/
structure InstallCommand where
  CheckCommands : List String
  InstallCommands : List String
  InstallFunc : Option (Option GoError)
  Name : String
  Description : String

/-- Model of the InstallResult struct. -/
structure InstallResult where
  AlreadyInstalled : Bool
  Success : Bool
  Version : String
  Err : Option GoError
deriving DecidableEq

/-- Model of defaultInstallFunc, the default installation function that does
nothing: calling it returns a nil error. -/
def defaultInstallFunc : Option GoError := none

/-- Model of ExecuteInstall: checks installation state, returns early when
already installed, otherwise runs the install commands, then the custom
install function when present, then resolves the version via getVersion.
Returns the InstallResult paired with the trace of every invocation made. -/
def ExecuteInstall (env : Env) (cmd : InstallCommand) : InstallResult × List Invocation :=
  let c := checkInstalled env cmd.CheckCommands
  match c.err with
  | some e => (⟨false, false, "", some e⟩, c.trace)
  | none =>
    if c.installed then
      (⟨true, true, c.version, none⟩, c.trace)
    else
      let ri := runInstallCommands env cmd.InstallCommands
      match ri.err with
      | some e => (⟨false, false, "", some e⟩, c.trace ++ ri.trace)
      | none =>
        let customTrace : List Invocation :=
          match cmd.InstallFunc with
          | some _ => [Invocation.customCall]
          | none => []
        let customErr : Option GoError :=
          match cmd.InstallFunc with
          | some r => r
          | none => none
        match customErr with
        | some e => (⟨false, false, "", some e⟩, c.trace ++ ri.trace ++ customTrace)
        | none =>
          let gv := getVersion env cmd.CheckCommands
          match gv.err with
          | some e => (⟨false, false, "", some e⟩, c.trace ++ ri.trace ++ customTrace ++ gv.trace)
          | none => (⟨false, true, gv.version, none⟩, c.trace ++ ri.trace ++ customTrace ++ gv.trace)

/-- Variant of ExecuteInstall with the detection-error branch (the early
return taken when checkInstalled reports a non-nil error) removed. Used
only to state that this branch of ExecuteInstall is unreachable. -/
def ExecuteInstallNoDetectErr (env : Env) (cmd : InstallCommand) : InstallResult × List Invocation :=
  let c := checkInstalled env cmd.CheckCommands
  if c.installed then
    (⟨true, true, c.version, none⟩, c.trace)
  else
    let ri := runInstallCommands env cmd.InstallCommands
    match ri.err with
    | some e => (⟨false, false, "", some e⟩, c.trace ++ ri.trace)
    | none =>
      let customTrace : List Invocation :=
        match cmd.InstallFunc with
        | some _ => [Invocation.customCall]
        | none => []
      let customErr : Option GoError :=
        match cmd.InstallFunc with
        | some r => r
        | none => none
      match customErr with
      | some e => (⟨false, false, "", some e⟩, c.trace ++ ri.trace ++ customTrace)
      | none =>
        let gv := getVersion env cmd.CheckCommands
        match gv.err with
        | some e => (⟨false, false, "", some e⟩, c.trace ++ ri.trace ++ customTrace ++ gv.trace)
        | none => (⟨false, true, gv.version, none⟩, c.trace ++ ri.trace ++ customTrace ++ gv.trace)

/-- The five installation phases invoked by Setup.Run in main.go, in their
declared order. -/
inductive SetupPhase where
  | cloneConfigs : SetupPhase
  | installNodeJS : SetupPhase
  | installClaudeCode : SetupPhase
  | installNeovim : SetupPhase
  | installFish : SetupPhase
deriving DecidableEq

/-- Abstraction of the host system for the legacy orchestrator: each phase
method (CloneConfigs, InstallNodeJS, ...) either succeeds (none) or returns
an error. The internal commands of each phase are outside this claim's
scope, so a phase is modelled by its returned error value. -/
structure SetupEnv where
  phaseResult : SetupPhase → Option GoError

/-- Model of Setup.Run in main.go: invokes the five phases in declared
order; the first phase returning an error aborts the run with that error
wrapped in the corresponding message. Returns the error (none on success)
paired with the list of phases attempted, in execution order. -/
def SetupRun (env : SetupEnv) : Option GoError × List SetupPhase :=
  match env.phaseResult SetupPhase.cloneConfigs with
  | some e => (some (GoError.wrapped "設定ファイルのクローンに失敗" e), [SetupPhase.cloneConfigs])
  | none =>
  match env.phaseResult SetupPhase.installNodeJS with
  | some e => (some (GoError.wrapped "Node.jsのインストールに失敗" e),
      [SetupPhase.cloneConfigs, SetupPhase.installNodeJS])
  | none =>
  match env.phaseResult SetupPhase.installClaudeCode with
  | some e => (some (GoError.wrapped "Claude Codeのインストールに失敗" e),
      [SetupPhase.cloneConfigs, SetupPhase.installNodeJS, SetupPhase.installClaudeCode])
  | none =>
  match env.phaseResult SetupPhase.installNeovim with
  | some e => (some (GoError.wrapped "Neovimのインストールに失敗" e),
      [SetupPhase.cloneConfigs, SetupPhase.installNodeJS, SetupPhase.installClaudeCode,
       SetupPhase.installNeovim])
  | none =>
  match env.phaseResult SetupPhase.installFish with
  | some e => (some (GoError.wrapped "Fishのインストールに失敗" e),
      [SetupPhase.cloneConfigs, SetupPhase.installNodeJS, SetupPhase.installClaudeCode,
       SetupPhase.installNeovim, SetupPhase.installFish])
  | none =>
    (none,
      [SetupPhase.cloneConfigs, SetupPhase.installNodeJS, SetupPhase.installClaudeCode,
       SetupPhase.installNeovim, SetupPhase.installFish])

/-- The declared phase order of Setup.Run, each with the message its error
is wrapped in. -/
def phaseList : List (SetupPhase × String) :=
  [(SetupPhase.cloneConfigs, "設定ファイルのクローンに失敗"),
   (SetupPhase.installNodeJS, "Node.jsのインストールに失敗"),
   (SetupPhase.installClaudeCode, "Claude Codeのインストールに失敗"),
   (SetupPhase.installNeovim, "Neovimのインストールに失敗"),
   (SetupPhase.installFish, "Fishのインストールに失敗")]

/-- List form of Setup.Run, processing the phases of a given list in order;
SetupRun is proved equal to runPhases on phaseList. -/
def runPhases (env : SetupEnv) (done : List SetupPhase) :
    List (SetupPhase × String) → Option GoError × List SetupPhase
  | [] => (none, done)
  | (p, msg) :: rest =>
    match env.phaseResult p with
    | some e => (some (GoError.wrapped msg e), done ++ [p])
    | none => runPhases env (done ++ [p]) rest

/-- Model of main in main.go: the process exits with status 1 when
Setup.Run returns an error and with status 0 otherwise. -/
def mainExitCode (env : SetupEnv) : Nat :=
  match (SetupRun env).1 with
  | some _ => 1
  | none => 0

/-- Probe invocations that checkInstalled performs on a given command list:
one probe per command that tokenizes to a non-empty word list. -/
def probeTraceOf : List String → List Invocation
  | [] => []
  | a :: rest =>
    if fields a = [] then probeTraceOf rest
    else Invocation.probe (fields a) :: probeTraceOf rest

/-- Install-step invocations that runInstallCommands performs on a command
list when every step succeeds: one run per non-blank command. -/
def stepTraceOf : List String → List Invocation
  | [] => []
  | a :: rest =>
    if fields a = [] then stepTraceOf rest
    else Invocation.run (fields a) :: stepTraceOf rest

theorem aux_checkInstalled_err_none (env : Env) (l : List String) :
    (checkInstalled env l).err = none := by
  induction l with
  | nil => rfl
  | cons a rest ih =>
    by_cases h : fields a = []
    · simpa [checkInstalled, h] using ih
    · cases hok : (env (fields a)).ok
      · simpa [checkInstalled, h, hok] using ih
      · simp [checkInstalled, h, hok]

theorem aux_checkInstalled_trace_probes (env : Env) (l : List String) :
    ∀ inv ∈ (checkInstalled env l).trace, ∃ parts, inv = Invocation.probe parts := by
  induction l with
  | nil => simp [checkInstalled]
  | cons a rest ih =>
    by_cases h : fields a = []
    · simpa [checkInstalled, h] using ih
    · cases hok : (env (fields a)).ok
      · intro inv hinv
        simp [checkInstalled, h, hok] at hinv
        rcases hinv with rfl | hinv
        · exact ⟨fields a, rfl⟩
        · exact ih inv hinv
      · intro inv hinv
        simp [checkInstalled, h, hok] at hinv
        exact ⟨fields a, hinv⟩

theorem aux_runInstall_trace_runs (env : Env) (l : List String) :
    ∀ inv ∈ (runInstallCommands env l).trace, ∃ parts, inv = Invocation.run parts := by
  induction l with
  | nil => simp [runInstallCommands]
  | cons a rest ih =>
    by_cases h : fields a = []
    · simpa [runInstallCommands, h] using ih
    · cases hok : (env (fields a)).ok
      · intro inv hinv
        simp [runInstallCommands, h, hok] at hinv
        exact ⟨fields a, hinv⟩
      · intro inv hinv
        simp [runInstallCommands, h, hok] at hinv
        rcases hinv with rfl | hinv
        · exact ⟨fields a, rfl⟩
        · exact ih inv hinv

theorem aux_checkInstalled_front_fail (env : Env) (pre rest : List String)
    (hpre : ∀ a ∈ pre, fields a ≠ [] → (env (fields a)).ok = false) :
    checkInstalled env (pre ++ rest) =
      ⟨(checkInstalled env rest).installed, (checkInstalled env rest).version,
       (checkInstalled env rest).err, probeTraceOf pre ++ (checkInstalled env rest).trace⟩ := by
  induction pre with
  | nil => simp [probeTraceOf]
  | cons a pre ih =>
    have ha := hpre a (by simp)
    have hrec : ∀ b ∈ pre, fields b ≠ [] → (env (fields b)).ok = false :=
      fun b hb => hpre b (by simp [hb])
    by_cases h : fields a = []
    · simp [checkInstalled, h, probeTraceOf, ih hrec]
    · simp [checkInstalled, h, ha h, probeTraceOf, ih hrec]

theorem aux_checkInstalled_all_fail (env : Env) (l : List String)
    (h : ∀ a ∈ l, fields a ≠ [] → (env (fields a)).ok = false) :
    checkInstalled env l = ⟨false, "", none, probeTraceOf l⟩ := by
  have := aux_checkInstalled_front_fail env l [] h
  simpa [checkInstalled] using this

theorem aux_runInstall_front_ok (env : Env) (pre rest : List String)
    (hpre : ∀ a ∈ pre, fields a ≠ [] → (env (fields a)).ok = true) :
    runInstallCommands env (pre ++ rest) =
      ⟨(runInstallCommands env rest).err,
       stepTraceOf pre ++ (runInstallCommands env rest).trace⟩ := by
  induction pre with
  | nil => simp [stepTraceOf]
  | cons a pre ih =>
    have ha := hpre a (by simp)
    have hrec : ∀ b ∈ pre, fields b ≠ [] → (env (fields b)).ok = true :=
      fun b hb => hpre b (by simp [hb])
    by_cases h : fields a = []
    · simp [runInstallCommands, h, stepTraceOf, ih hrec]
    · simp [runInstallCommands, h, ha h, stepTraceOf, ih hrec]

theorem aux_runInstall_blank (env : Env) (l : List String)
    (h : ∀ a ∈ l, fields a = []) :
    runInstallCommands env l = ⟨none, []⟩ := by
  induction l with
  | nil => rfl
  | cons a rest ih =>
    have ha := h a (by simp)
    simp [runInstallCommands, ha, ih (fun b hb => h b (by simp [hb]))]

theorem aux_getVersion_not_installed (env : Env) (l : List String)
    (h : (checkInstalled env l).installed = false) :
    getVersion env l = ⟨"", none, (checkInstalled env l).trace⟩ := by
  simp [getVersion, h, aux_checkInstalled_err_none]

theorem aux_getVersion_err_none (env : Env) (l : List String) :
    (getVersion env l).err = none := by
  cases h : (checkInstalled env l).installed <;>
    simp [getVersion, h, aux_checkInstalled_err_none]

theorem aux_getVersion_trace (env : Env) (l : List String) :
    (getVersion env l).trace = (checkInstalled env l).trace := by
  cases h : (checkInstalled env l).installed <;>
    simp [getVersion, h, aux_checkInstalled_err_none]

theorem aux_customCall_notin_check (env : Env) (l : List String) :
    Invocation.customCall ∉ (checkInstalled env l).trace := by
  intro hmem
  rcases aux_checkInstalled_trace_probes env l _ hmem with ⟨p, hp⟩
  cases hp

theorem aux_customCall_notin_runInstall (env : Env) (l : List String) :
    Invocation.customCall ∉ (runInstallCommands env l).trace := by
  intro hmem
  rcases aux_runInstall_trace_runs env l _ hmem with ⟨p, hp⟩
  cases hp

theorem aux_run_notin_check (env : Env) (l : List String) (parts : List String) :
    Invocation.run parts ∉ (checkInstalled env l).trace := by
  intro hmem
  rcases aux_checkInstalled_trace_probes env l _ hmem with ⟨q, hq⟩
  cases hq

theorem aux_setupRun_eq (env : SetupEnv) :
    SetupRun env = runPhases env [] phaseList := by
  cases h1 : env.phaseResult SetupPhase.cloneConfigs <;>
  cases h2 : env.phaseResult SetupPhase.installNodeJS <;>
  cases h3 : env.phaseResult SetupPhase.installClaudeCode <;>
  cases h4 : env.phaseResult SetupPhase.installNeovim <;>
  cases h5 : env.phaseResult SetupPhase.installFish <;>
  simp [SetupRun, runPhases, phaseList, h1, h2, h3, h4, h5]

theorem aux_runPhases_front_ok (env : SetupEnv) (pre rest : List (SetupPhase × String))
    (hpre : ∀ q ∈ pre, env.phaseResult q.1 = none) :
    ∀ done : List SetupPhase,
      runPhases env done (pre ++ rest) = runPhases env (done ++ pre.map Prod.fst) rest := by
  induction pre with
  | nil => intro done; simp
  | cons a pre ih =>
    intro done
    obtain ⟨p, msg⟩ := a
    have ha : env.phaseResult p = none := hpre (p, msg) (by simp)
    have hrec : ∀ q ∈ pre, env.phaseResult q.1 = none :=
      fun q hq => hpre q (by simp [hq])
    simp only [List.cons_append, runPhases, ha, List.append_eq]
    rw [ih hrec (done ++ [p])]
    simp

/-- Environment for the probe-ordering witness: only the command line B
succeeds, producing untrimmed output with surrounding whitespace. -/
def envAB : Env := fun parts =>
  if parts = ["B"] then ⟨" 2.0 ", true⟩ else ⟨"", false⟩

/-- Environment for the version-resolution scenario: only the install step
echo installed succeeds; every detection probe fails. -/
def envC2 : Env := fun parts =>
  if parts = ["echo", "installed"] then ⟨"installed", true⟩ else ⟨"", false⟩

/-- Task from the spec scenario: detection probe that never succeeds, and
an install step that does. -/
def taskC2 : InstallCommand :=
  ⟨["doesnotexist --version"], ["echo installed"], none, "Missing", ""⟩

/-- Environment where the probe echo 1.0 succeeds with whitespace-padded
output and everything else fails. -/
def envEcho : Env := fun parts =>
  if parts = ["echo", "1.0"] then ⟨" 1.0\n", true⟩ else ⟨"", false⟩

/-- Task whose detection probe succeeds; its install steps must never run. -/
def cmdEcho : InstallCommand :=
  ⟨["echo 1.0"], ["apt-get install -y tool"], some defaultInstallFunc, "Echo", "echo tool"⟩

/-- Environment where only the install step echo ok succeeds. -/
def envC4 : Env := fun parts =>
  if parts = ["echo", "ok"] then ⟨"ok", true⟩ else ⟨"", false⟩

/-- Task with a failing middle install step. -/
def cmdC4 : InstallCommand :=
  ⟨["nope --version"], ["echo ok", "badstep", "echo later"], some defaultInstallFunc, "Tool", ""⟩

/-- Task whose custom install function always fails. -/
def cmdC6 : InstallCommand :=
  ⟨["nope --version"], ["echo ok"], some (some (GoError.customMsg "boom")), "Tool", ""⟩

/-- Environment where every command fails. -/
def envFail : Env := fun _ => ⟨"", false⟩

/-- Task whose install steps are all blank strings. -/
def cmdC10 : InstallCommand :=
  ⟨["nope --version"], ["", "   "], none, "Tool", ""⟩

/-- Orchestrator environment where the Claude Code phase fails and every
other phase succeeds. -/
def envC8 : SetupEnv :=
  ⟨fun p => if p = SetupPhase.installClaudeCode then some (GoError.customMsg "npm failed") else none⟩

/-- C1: checkInstalled tries the probes in listed order and the first probe
whose execution succeeds determines the result: installed = true with that
probe's output trimmed of surrounding whitespace as the version (for
probes pre ++ b :: post where the probes before b all fail and b succeeds,
b decides the result). -/
theorem checkInstalled_first_success_wins (env : Env) (pre post : List String) (b : String)
    (hpre : ∀ a ∈ pre, fields a ≠ [] → (env (fields a)).ok = false)
    (hb : fields b ≠ []) (hok : (env (fields b)).ok = true) :
    (checkInstalled env (pre ++ b :: post)).installed = true ∧
    (checkInstalled env (pre ++ b :: post)).version = trimSpace (env (fields b)).output := by
  rw [aux_checkInstalled_front_fail env pre (b :: post) hpre]
  simp [checkInstalled, hb, hok]

/-- C1 witness: with probes [A, B] where A fails and B succeeds with
output " 2.0 ", the result is installed with version "2.0". -/
theorem checkInstalled_first_success_wins_witness :
    ((∀ a ∈ ["A"], fields a ≠ [] → (envAB (fields a)).ok = false) ∧
     fields "B" ≠ [] ∧ (envAB (fields "B")).ok = true) ∧
    ((checkInstalled envAB (["A"] ++ "B" :: [])).installed = true ∧
     (checkInstalled envAB (["A"] ++ "B" :: [])).version = trimSpace (envAB (fields "B")).output) :=
  ⟨⟨by decide, by decide, by decide⟩,
   checkInstalled_first_success_wins envAB ["A"] [] "B" (by decide) (by decide) (by decide)⟩

/-- C2 counterexample: for the spec's own scenario (detection fails, the
install step succeeds, the post-install re-probe fails again) ExecuteInstall
returns success = true with a nil error and empty version, not a failing
outcome carrying a version-resolution error. -/
theorem executeInstall_reprobe_failure_cex :
    (checkInstalled envC2 taskC2.CheckCommands).installed = false ∧
    (runInstallCommands envC2 taskC2.InstallCommands).err = none ∧
    (ExecuteInstall envC2 taskC2).1.Success = true ∧
    (ExecuteInstall envC2 taskC2).1.Err = none ∧
    (ExecuteInstall envC2 taskC2).1.Version = "" := by decide

/-- C2 amended: when detection fails, all install steps succeed and the
custom action is absent or succeeds, the post-install re-probe (which fails
again, the environment being fixed) produces the outcome
alreadyInstalled = false, success = true, empty version and nil error:
getVersion propagates no error because checkInstalled never returns one. -/
theorem executeInstall_reprobe_failure_success (env : Env) (cmd : InstallCommand)
    (hdet : (checkInstalled env cmd.CheckCommands).installed = false)
    (hinst : (runInstallCommands env cmd.InstallCommands).err = none)
    (hcustom : cmd.InstallFunc = none ∨ cmd.InstallFunc = some none) :
    (ExecuteInstall env cmd).1 = ⟨false, true, "", none⟩ := by
  have he := aux_checkInstalled_err_none env cmd.CheckCommands
  have hgv := aux_getVersion_not_installed env cmd.CheckCommands hdet
  rcases hcustom with hc | hc <;>
    simp [ExecuteInstall, he, hdet, hinst, hc, hgv]

/-- C2 witness for the amended claim, at the spec's concrete scenario. -/
theorem executeInstall_reprobe_failure_success_witness :
    ((checkInstalled envC2 taskC2.CheckCommands).installed = false ∧
     (runInstallCommands envC2 taskC2.InstallCommands).err = none) ∧
    (ExecuteInstall envC2 taskC2).1 = ⟨false, true, "", none⟩ :=
  ⟨⟨by decide, by decide⟩,
   executeInstall_reprobe_failure_success envC2 taskC2 (by decide) (by decide) (Or.inl rfl)⟩

/-- C3: when detection succeeds, ExecuteInstall returns the terminal
outcome alreadyInstalled = true, success = true with the detected version,
and its trace contains only detection probes: no install step and no
custom action is invoked. -/
theorem executeInstall_idempotent (env : Env) (cmd : InstallCommand)
    (h : (checkInstalled env cmd.CheckCommands).installed = true) :
    (ExecuteInstall env cmd).1 =
      ⟨true, true, (checkInstalled env cmd.CheckCommands).version, none⟩ ∧
    ∀ inv ∈ (ExecuteInstall env cmd).2, ∃ parts, inv = Invocation.probe parts := by
  have he := aux_checkInstalled_err_none env cmd.CheckCommands
  constructor
  · simp [ExecuteInstall, he, h]
  · intro inv hinv
    apply aux_checkInstalled_trace_probes env cmd.CheckCommands
    simpa [ExecuteInstall, he, h] using hinv

/-- C3 witness: a task detected as installed is reported already installed
and its trace holds no install-step or custom invocation. -/
theorem executeInstall_idempotent_witness :
    (checkInstalled envEcho cmdEcho.CheckCommands).installed = true ∧
    ((ExecuteInstall envEcho cmdEcho).1 =
       ⟨true, true, (checkInstalled envEcho cmdEcho.CheckCommands).version, none⟩ ∧
     ∀ inv ∈ (ExecuteInstall envEcho cmdEcho).2, ∃ parts, inv = Invocation.probe parts) :=
  ⟨by decide, executeInstall_idempotent envEcho cmdEcho (by decide)⟩

/-- C4: runInstallCommands executes the steps strictly in listed order and
the first failing step aborts the sequence: its trace is exactly the
non-blank steps before the failure followed by the failing step, with
nothing afterwards, and ExecuteInstall surfaces that step's error in an
unsuccessful outcome. -/
theorem runInstallCommands_fail_fast (env : Env) (cmd : InstallCommand)
    (pre post : List String) (f : String)
    (hcmds : cmd.InstallCommands = pre ++ f :: post)
    (hdet : (checkInstalled env cmd.CheckCommands).installed = false)
    (hpre : ∀ a ∈ pre, fields a ≠ [] → (env (fields a)).ok = true)
    (hf : fields f ≠ []) (hfail : (env (fields f)).ok = false) :
    runInstallCommands env cmd.InstallCommands =
      ⟨some (GoError.execFailed (fields f)), stepTraceOf pre ++ [Invocation.run (fields f)]⟩ ∧
    (ExecuteInstall env cmd).1 = ⟨false, false, "", some (GoError.execFailed (fields f))⟩ := by
  have hrun : runInstallCommands env cmd.InstallCommands =
      ⟨some (GoError.execFailed (fields f)), stepTraceOf pre ++ [Invocation.run (fields f)]⟩ := by
    rw [hcmds, aux_runInstall_front_ok env pre (f :: post) hpre]
    simp [runInstallCommands, hf, hfail]
  refine ⟨hrun, ?_⟩
  have he := aux_checkInstalled_err_none env cmd.CheckCommands
  simp [ExecuteInstall, he, hdet, hrun]

/-- C4 witness: with steps [echo ok, badstep, echo later] where badstep
fails, only echo ok and badstep run and the task fails with badstep's
error. -/
theorem runInstallCommands_fail_fast_witness :
    (cmdC4.InstallCommands = ["echo ok"] ++ "badstep" :: ["echo later"] ∧
     (checkInstalled envC4 cmdC4.CheckCommands).installed = false) ∧
    (runInstallCommands envC4 cmdC4.InstallCommands =
       ⟨some (GoError.execFailed (fields "badstep")),
        stepTraceOf ["echo ok"] ++ [Invocation.run (fields "badstep")]⟩ ∧
     (ExecuteInstall envC4 cmdC4).1 =
       ⟨false, false, "", some (GoError.execFailed (fields "badstep"))⟩) :=
  ⟨⟨rfl, by decide⟩,
   runInstallCommands_fail_fast envC4 cmdC4 ["echo ok"] ["echo later"] "badstep"
     rfl (by decide) (by decide) (by decide) (by decide)⟩

/-- C5: in every outcome of ExecuteInstall the error field is present
exactly when success is false, and alreadyInstalled = true implies
success = true with a nil error. -/
theorem installResult_invariant (env : Env) (cmd : InstallCommand) :
    ((ExecuteInstall env cmd).1.Err.isSome ↔ (ExecuteInstall env cmd).1.Success = false) ∧
    ((ExecuteInstall env cmd).1.AlreadyInstalled = true →
      (ExecuteInstall env cmd).1.Success = true ∧ (ExecuteInstall env cmd).1.Err = none) := by
  have he := aux_checkInstalled_err_none env cmd.CheckCommands
  cases hi : (checkInstalled env cmd.CheckCommands).installed
  · cases hr : (runInstallCommands env cmd.InstallCommands).err with
    | some e => simp [ExecuteInstall, he, hi, hr]
    | none =>
      cases hc : cmd.InstallFunc with
      | none =>
        cases hg : (getVersion env cmd.CheckCommands).err with
        | some e => simp [ExecuteInstall, he, hi, hr, hc, hg]
        | none => simp [ExecuteInstall, he, hi, hr, hc, hg]
      | some r =>
        cases r with
        | none =>
          cases hg : (getVersion env cmd.CheckCommands).err with
          | some e => simp [ExecuteInstall, he, hi, hr, hc, hg]
          | none => simp [ExecuteInstall, he, hi, hr, hc, hg]
        | some e => simp [ExecuteInstall, he, hi, hr, hc]
  · simp [ExecuteInstall, he, hi]

/-- C5 witness: at a task detected as installed, alreadyInstalled is true
and the invariant yields success with a nil error. -/
theorem installResult_invariant_witness :
    (ExecuteInstall envEcho cmdEcho).1.AlreadyInstalled = true ∧
    ((ExecuteInstall envEcho cmdEcho).1.Success = true ∧
     (ExecuteInstall envEcho cmdEcho).1.Err = none) :=
  ⟨by decide, (installResult_invariant envEcho cmdEcho).2 (by decide)⟩

/-- C6: after a failed detection, the custom install function is invoked
exactly once when all install steps succeed and it is present (and never
otherwise, a nil function being skipped as the no-op default), and its
failure halts the task with the outcome alreadyInstalled = false,
success = false carrying the custom action's error. -/
theorem executeInstall_custom_action_once (env : Env) (cmd : InstallCommand)
    (hdet : (checkInstalled env cmd.CheckCommands).installed = false) :
    ((ExecuteInstall env cmd).2.count Invocation.customCall =
      if (runInstallCommands env cmd.InstallCommands).err = none ∧ cmd.InstallFunc.isSome
      then 1 else 0) ∧
    (∀ e, (runInstallCommands env cmd.InstallCommands).err = none →
      cmd.InstallFunc = some (some e) →
      (ExecuteInstall env cmd).1 = ⟨false, false, "", some e⟩) := by
  have he := aux_checkInstalled_err_none env cmd.CheckCommands
  have h1 : ((checkInstalled env cmd.CheckCommands).trace).count Invocation.customCall = 0 :=
    List.count_eq_zero.mpr (aux_customCall_notin_check env cmd.CheckCommands)
  have h2 : ((runInstallCommands env cmd.InstallCommands).trace).count Invocation.customCall = 0 :=
    List.count_eq_zero.mpr (aux_customCall_notin_runInstall env cmd.InstallCommands)
  have h3 : ((getVersion env cmd.CheckCommands).trace).count Invocation.customCall = 0 := by
    rw [aux_getVersion_trace]
    exact List.count_eq_zero.mpr (aux_customCall_notin_check env cmd.CheckCommands)
  constructor
  · cases hr : (runInstallCommands env cmd.InstallCommands).err with
    | some e => simp [ExecuteInstall, he, hdet, hr, List.count_append, h1, h2]
    | none =>
      cases hc : cmd.InstallFunc with
      | none =>
        cases hg : (getVersion env cmd.CheckCommands).err with
        | some e => simp [ExecuteInstall, he, hdet, hr, hc, hg, List.count_append, h1, h2, h3]
        | none => simp [ExecuteInstall, he, hdet, hr, hc, hg, List.count_append, h1, h2, h3]
      | some r =>
        cases r with
        | none =>
          cases hg : (getVersion env cmd.CheckCommands).err with
          | some e => simp [ExecuteInstall, he, hdet, hr, hc, hg, List.count_append, h1, h2, h3]
          | none => simp [ExecuteInstall, he, hdet, hr, hc, hg, List.count_append, h1, h2, h3]
        | some e => simp [ExecuteInstall, he, hdet, hr, hc, List.count_append, h1, h2]
  · intro e hr hc
    simp [ExecuteInstall, he, hdet, hr, hc]

/-- C6 witness: a task whose only install step succeeds and whose custom
function fails invokes the custom function exactly once and fails with
its error. -/
theorem executeInstall_custom_action_once_witness :
    (checkInstalled envC4 cmdC6.CheckCommands).installed = false ∧
    (((ExecuteInstall envC4 cmdC6).2.count Invocation.customCall =
       if (runInstallCommands envC4 cmdC6.InstallCommands).err = none ∧ cmdC6.InstallFunc.isSome
       then 1 else 0) ∧
     (∀ e, (runInstallCommands envC4 cmdC6.InstallCommands).err = none →
       cmdC6.InstallFunc = some (some e) →
       (ExecuteInstall envC4 cmdC6).1 = ⟨false, false, "", some e⟩)) :=
  ⟨by decide, executeInstall_custom_action_once envC4 cmdC6 (by decide)⟩

/-- C7: when every probe that tokenizes to a non-empty command fails, the
result is installed = false with empty version and nil error, the probes
actually executed being exactly the non-blank ones (zero-token probes are
skipped, never treated as a match; the empty list is the special case with
no hypothesis to satisfy). -/
theorem checkInstalled_all_fail_no_error (env : Env) (l : List String)
    (h : ∀ a ∈ l, fields a ≠ [] → (env (fields a)).ok = false) :
    checkInstalled env l = ⟨false, "", none, probeTraceOf l⟩ :=
  aux_checkInstalled_all_fail env l h

/-- C7 witness: a blank probe plus a failing probe yield not installed,
empty version and nil error, executing only the non-blank probe. -/
theorem checkInstalled_all_fail_no_error_witness :
    (∀ a ∈ ["", "doesnotexist --version"], fields a ≠ [] → (envFail (fields a)).ok = false) ∧
    checkInstalled envFail ["", "doesnotexist --version"] =
      ⟨false, "", none, probeTraceOf ["", "doesnotexist --version"]⟩ :=
  ⟨by decide, checkInstalled_all_fail_no_error envFail _ (by decide)⟩

/-- C8: Setup.Run attempts the phases in declared order and the first
failing phase aborts the run: phases before it stand attempted, nothing
after it is attempted, the run returns that phase's wrapped error, and the
process exit status is 1 there; in general the exit status is 0 exactly
when the run succeeds. -/
theorem setupRun_fail_fast (env : SetupEnv) (pre post : List (SetupPhase × String))
    (p : SetupPhase) (msg : String) (e : GoError)
    (horder : phaseList = pre ++ (p, msg) :: post)
    (hpre : ∀ q ∈ pre, env.phaseResult q.1 = none)
    (hp : env.phaseResult p = some e) :
    (SetupRun env).1 = some (GoError.wrapped msg e) ∧
    (SetupRun env).2 = pre.map Prod.fst ++ [p] ∧
    mainExitCode env = 1 ∧
    (∀ env2 : SetupEnv, mainExitCode env2 = 0 ↔ (SetupRun env2).1 = none) := by
  have hrun : SetupRun env = (some (GoError.wrapped msg e), pre.map Prod.fst ++ [p]) := by
    rw [aux_setupRun_eq, horder, aux_runPhases_front_ok env pre _ hpre []]
    simp [runPhases, hp]
  refine ⟨by rw [hrun], by rw [hrun], by simp [mainExitCode, hrun], ?_⟩
  intro env2
  cases h : (SetupRun env2).1 <;> simp [mainExitCode, h]

/-- C8 witness: with the Claude Code phase failing, the clone and Node.js
phases are attempted and recorded, the two later phases never are, the run
fails with the wrapped error and the exit status is 1. -/
theorem setupRun_fail_fast_witness :
    envC8.phaseResult SetupPhase.installClaudeCode = some (GoError.customMsg "npm failed") ∧
    (SetupRun envC8).1 =
      some (GoError.wrapped "Claude Codeのインストールに失敗" (GoError.customMsg "npm failed")) ∧
    (SetupRun envC8).2 =
      [SetupPhase.cloneConfigs, SetupPhase.installNodeJS, SetupPhase.installClaudeCode] ∧
    mainExitCode envC8 = 1 := by
  have h := setupRun_fail_fast envC8
      [(SetupPhase.cloneConfigs, "設定ファイルのクローンに失敗"),
       (SetupPhase.installNodeJS, "Node.jsのインストールに失敗")]
      [(SetupPhase.installNeovim, "Neovimのインストールに失敗"),
       (SetupPhase.installFish, "Fishのインストールに失敗")]
      SetupPhase.installClaudeCode "Claude Codeのインストールに失敗" (GoError.customMsg "npm failed")
      rfl (by decide) (by decide)
  exact ⟨by decide, h.1, by simpa using h.2.1, h.2.2.1⟩

/-- C9: checkInstalled returns a nil error on every command list, so the
detection-error branch of ExecuteInstall is unreachable: ExecuteInstall
coincides with its variant from which that branch is removed, and no
outcome carries an error originating from the detection check. -/
theorem checkInstalled_never_errors (env : Env) (l : List String) (cmd : InstallCommand) :
    (checkInstalled env l).err = none ∧
    ExecuteInstall env cmd = ExecuteInstallNoDetectErr env cmd := by
  refine ⟨aux_checkInstalled_err_none env l, ?_⟩
  have he := aux_checkInstalled_err_none env cmd.CheckCommands
  simp [ExecuteInstall, ExecuteInstallNoDetectErr, he]

/-- C10: runInstallCommands returns a nil error and an empty trace when
every install step is blank (the empty list included), and a task whose
steps are all blank proceeds from a failed detection to version
resolution with no install step ever run: its trace holds no run
invocation and, with no custom function, its outcome is the
version-resolution outcome. -/
theorem runInstallCommands_blank_skip (env : Env) (cmd : InstallCommand)
    (hblank : ∀ a ∈ cmd.InstallCommands, fields a = [])
    (hdet : (checkInstalled env cmd.CheckCommands).installed = false) :
    runInstallCommands env cmd.InstallCommands = ⟨none, []⟩ ∧
    (∀ inv ∈ (ExecuteInstall env cmd).2, ∀ parts, inv ≠ Invocation.run parts) ∧
    (cmd.InstallFunc = none →
      (ExecuteInstall env cmd).1 =
        ⟨false, true, (getVersion env cmd.CheckCommands).version, none⟩) := by
  have hrun := aux_runInstall_blank env cmd.InstallCommands hblank
  have he := aux_checkInstalled_err_none env cmd.CheckCommands
  have hgv := aux_getVersion_not_installed env cmd.CheckCommands hdet
  refine ⟨hrun, ?_, ?_⟩
  · intro inv hinv parts heq
    subst heq
    cases hc : cmd.InstallFunc with
    | none =>
      simp [ExecuteInstall, he, hdet, hrun, hc, hgv] at hinv
      exact aux_run_notin_check env cmd.CheckCommands parts hinv
    | some r =>
      cases r with
      | none =>
        simp [ExecuteInstall, he, hdet, hrun, hc, hgv] at hinv
        exact aux_run_notin_check env cmd.CheckCommands parts hinv
      | some e =>
        simp [ExecuteInstall, he, hdet, hrun, hc] at hinv
        exact aux_run_notin_check env cmd.CheckCommands parts hinv
  · intro hc
    simp [ExecuteInstall, he, hdet, hrun, hc, hgv]

/-- C10 witness: a task with blank install steps and failing detection runs
no install step and succeeds with the version-resolution outcome. -/
theorem runInstallCommands_blank_skip_witness :
    ((∀ a ∈ cmdC10.InstallCommands, fields a = []) ∧
     (checkInstalled envFail cmdC10.CheckCommands).installed = false) ∧
    (runInstallCommands envFail cmdC10.InstallCommands = ⟨none, []⟩ ∧
     (∀ inv ∈ (ExecuteInstall envFail cmdC10).2, ∀ parts, inv ≠ Invocation.run parts) ∧
     (cmdC10.InstallFunc = none →
       (ExecuteInstall envFail cmdC10).1 =
         ⟨false, true, (getVersion envFail cmdC10.CheckCommands).version, none⟩)) :=
  ⟨⟨by decide, by decide⟩, runInstallCommands_blank_skip envFail cmdC10 (by decide) (by decide)⟩

end SetupRepo
